import Mathlib

/-!
Shallow embedding of the `strct` Go package: a reflective struct scanner
(`Scan` / `ScanAll`) and a string-to-value coercion engine
(`Parse` / `ParseHard`).

The embedding follows the latest revision of the package (the file defining
`ScanAll` and the five-case emptiness switch including the nil rendering);
the older revision `base.go` agrees with it on every behaviour modelled here
except that its `Parse` guard lacks the nil case and its `ParseHard` lacks
the file/database branches.

Scanner model: a Go struct is an ordered list of fields; each field carries
its metadata (name and tag, i.e. `reflect.StructField`), whether it is
exported (which in Go determines both `CanSet` on the field and
`CanInterface` on its address, the two guards the code uses), and its shape:
a plain leaf value, a directly nested struct, a non-nil pointer to a struct,
a nil pointer to a struct, or a pointer to a non-struct.  The callbacks
`onStruct` / `onField` are modelled as pure functions from field metadata to
an optional caller error; a run produces the list of callback invocation
events together with the first error, mirroring the short-circuiting
`return err` in the source.

Coercion model: a settable location is a pair of a `PType` (the reflective
type, `reflect.Value.Kind` plus the extra type identities the code inspects)
and a `PValue` (the current data).  `fmt.Sprint` of the current value is
modelled by `sprint`, including Go's `time.Duration.String` rendering for
duration-typed integers; resource opening (`os.Open`, `sql.Open`) is an
external collaborator and is modelled as succeeding and recording its
arguments in the handle.  Go `float` destinations are outside the embedded
fragment (floating point).
-/

namespace Strct

/-- Field metadata: the parts of `reflect.StructField` the package exposes to
its callbacks (property name and tag text). -/
structure FieldMeta where
  name : String
  tag : String
deriving DecidableEq, Repr

/-- Shape-annotated ordered field list of a Go struct, as `reflect` presents
it to `ScanAll`: each field is a leaf, a nested struct, a non-nil pointer to
a struct, a nil pointer to a struct, or a pointer to a non-struct value.
The `exported` flag records Go field visibility, which determines
`f.CanSet()` and `f.Addr().CanInterface()` for fields of an addressable
struct. -/
inductive Fields where
  | nil : Fields
  | leafF (m : FieldMeta) (exported : Bool) (rest : Fields)
  | strctF (m : FieldMeta) (exported : Bool) (inner : Fields) (rest : Fields)
  | ptrStrctF (m : FieldMeta) (exported : Bool) (inner : Fields) (rest : Fields)
  | ptrNilF (m : FieldMeta) (exported : Bool) (rest : Fields)
  | ptrOtherF (m : FieldMeta) (exported : Bool) (rest : Fields)
deriving DecidableEq, Repr

/-- The root argument of `Scan` / `ScanAll`: `reflect.ValueOf(obj)` is either
not a pointer, a nil pointer, a pointer to a non-struct, or a pointer to a
struct with the given fields. -/
inductive Root where
  | notPtr : Root
  | nilPtr : Root
  | ptrToNonStruct : Root
  | ptrToStruct (fields : Fields) : Root
deriving DecidableEq, Repr

/-- Callback invocation events, in the order the scanner performs them. -/
inductive Event where
  | onStruct (m : FieldMeta)
  | onField (m : FieldMeta)
deriving DecidableEq, Repr

/-- Message of the package-level error value `ErrNoPtr`. -/
def ErrNoPtrMsg : String := "insert is not a pointer or a struct"

/-- Errors a scan can return: the package's own `ErrNoPtr`, or an error value
returned by one of the caller's callbacks (propagated verbatim). -/
inductive ScanErr (E : Type) where
  | noPtr : ScanErr E
  | cb (e : E) : ScanErr E
deriving DecidableEq, Repr

/-- Error message rendering of a `ScanErr` (callback errors are opaque). -/
def ScanErr.msg {E : Type} : ScanErr E → Option String
  | .noPtr => some ErrNoPtrMsg
  | .cb _ => none

/-- Sequencing of two traversal steps with short-circuiting on error, as in
the source's `if err := ...; err != nil { return err }` pattern: the second
step runs only when the first produced no error, and events accumulate in
order. -/
def seqStep {E : Type} (first : List Event × Option E)
    (rest : Unit → List Event × Option E) : List Event × Option E :=
  match first.2 with
  | some e => (first.1, some e)
  | none => (first.1 ++ (rest ()).1, (rest ()).2)

/-- The field loop of `ScanAll` (source lines 65–99): for each field, a
non-nil pointer to a struct is unwrapped and treated as a nested struct; a
nested struct whose address is not interfaceable (unexported) is skipped
entirely; otherwise `onStruct` fires and the scanner recurses; afterwards a
field that is not settable (unexported) is skipped, and otherwise `onField`
fires.  A nil pointer or a pointer to a non-struct breaks out of the kind
switch and goes straight to the settability check. -/
def scanFields {E : Type} (os op : FieldMeta → Option E) : Fields → List Event × Option E
  | .nil => ([], none)
  | .leafF m ex rest =>
      if ex then seqStep ([Event.onField m], op m) (fun _ => scanFields os op rest)
      else scanFields os op rest
  | .strctF m ex inner rest =>
      if ex then
        seqStep ([Event.onStruct m], os m) (fun _ =>
          seqStep (scanFields os op inner) (fun _ =>
            seqStep ([Event.onField m], op m) (fun _ => scanFields os op rest)))
      else scanFields os op rest
  | .ptrStrctF m ex inner rest =>
      if ex then
        seqStep ([Event.onStruct m], os m) (fun _ =>
          seqStep (scanFields os op inner) (fun _ =>
            seqStep ([Event.onField m], op m) (fun _ => scanFields os op rest)))
      else scanFields os op rest
  | .ptrNilF m ex rest =>
      if ex then seqStep ([Event.onField m], op m) (fun _ => scanFields os op rest)
      else scanFields os op rest
  | .ptrOtherF m ex rest =>
      if ex then seqStep ([Event.onField m], op m) (fun _ => scanFields os op rest)
      else scanFields os op rest

/-- `ScanAll`: rejects a root that is not a non-nil pointer to a struct with
`ErrNoPtr` before visiting anything, and otherwise runs the field loop,
wrapping callback errors. -/
def ScanAll {E : Type} (os op : FieldMeta → Option E) : Root → List Event × Option (ScanErr E)
  | .ptrToStruct fs => ((scanFields os op fs).1, (scanFields os op fs).2.map ScanErr.cb)
  | _ => ([], some ScanErr.noPtr)

/-- `Scan`: `ScanAll` with a no-op struct-level hook (source lines 48–50). -/
def Scan {E : Type} (op : FieldMeta → Option E) (r : Root) : List Event × Option (ScanErr E) :=
  ScanAll (fun _ => none) op r

/-- Metadata of the fields that can reach `onField`: exported fields, at the
top level and (recursively) inside exported nested structs and exported
non-nil struct pointers.  Nested metas come before the enclosing struct
field's own meta, matching traversal order. -/
def settableMetas : Fields → List FieldMeta
  | .nil => []
  | .leafF m ex rest => (if ex then [m] else []) ++ settableMetas rest
  | .strctF m ex inner rest =>
      (if ex then settableMetas inner ++ [m] else []) ++ settableMetas rest
  | .ptrStrctF m ex inner rest =>
      (if ex then settableMetas inner ++ [m] else []) ++ settableMetas rest
  | .ptrNilF m ex rest => (if ex then [m] else []) ++ settableMetas rest
  | .ptrOtherF m ex rest => (if ex then [m] else []) ++ settableMetas rest

/-- Reflective type of a settable location, as far as `ParseHard` inspects
it: `fv.Kind()` plus the extra identities the code checks (`Type().Bits()`
for numeric kinds, the `time.Duration` named-type test for signed integers,
and the `*os.File` / io-interface / `*sql.DB` type set for pointers and
interfaces).  `other` covers every kind the engine ignores, carrying the
`fmt.Sprint` rendering of its zero value. -/
inductive PType where
  | bool : PType
  | int (bits : Nat) (isDuration : Bool) : PType
  | uint (bits : Nat) : PType
  | str : PType
  | slice (elem : PType) : PType
  | file : PType
  | db : PType
  | other (zeroRender : String) : PType
deriving DecidableEq, Repr

/-- Data currently held by a location.  Opened resource handles record the
arguments they were opened with (path, or driver and connection string);
`none` is a nil pointer or nil interface.  `other` carries its `fmt.Sprint`
rendering. -/
inductive PValue where
  | bool (b : Bool) : PValue
  | int (v : Int) : PValue
  | uint (v : Nat) : PValue
  | str (s : String) : PValue
  | slice (elems : List PValue) : PValue
  | file (opened : Option String) : PValue
  | db (conn : Option (String × String)) : PValue
  | other (rendered : String) : PValue

/-- The Go zero value of each type: what `reflect.MakeSlice` puts in freshly
allocated elements. -/
def zeroValue : PType → PValue
  | .bool => .bool false
  | .int _ _ => .int 0
  | .uint _ => .uint 0
  | .str => .str ""
  | .slice _ => .slice []
  | .file => .file none
  | .db => .db none
  | .other zr => .other zr

/-- Largest value of Go's int64, used by the duration arithmetic overflow
checks. -/
def maxI64 : Nat := 9223372036854775807

/-- ASCII lower-casing, as strconv's `lower` is used on candidate digits. -/
def goLower (c : Char) : Char :=
  if 'A' ≤ c ∧ c ≤ 'Z' then Char.ofNat (c.toNat + 32) else c

/-- Digit decoding of strconv's `ParseUint` loop: decimal digits, then
letters as digits 10–35; anything else is a syntax error. -/
def digitVal (c : Char) : Option Nat :=
  if '0' ≤ c ∧ c ≤ '9' then some (c.toNat - 48)
  else if 'a' ≤ goLower c ∧ goLower c ≤ 'z' then some ((goLower c).toNat - 97 + 10)
  else none

/-- State machine of strconv's `underscoreOK`: underscores must separate
successive digits, and a base prefix counts as a digit.  The `saw` state is
`0` right after a digit, `1` right after an underscore, and `2` otherwise. -/
def underscoreLoop (hex : Bool) : List Char → Nat → Bool
  | [], saw => saw ≠ 1
  | c :: rest, saw =>
      if ('0' ≤ c ∧ c ≤ '9') ∨ (hex ∧ 'a' ≤ goLower c ∧ goLower c ≤ 'f') then
        underscoreLoop hex rest 0
      else if c = '_' then
        if saw ≠ 0 then false else underscoreLoop hex rest 1
      else if saw = 1 then false
      else underscoreLoop hex rest 2

/-- strconv's `underscoreOK`: reports whether the underscores in a numeric
literal are syntactically correct. -/
def underscoreOK (l : List Char) : Bool :=
  let l1 := match l with
    | c :: rest => if c = '-' ∨ c = '+' then rest else l
    | [] => l
  match l1 with
  | '0' :: c :: rest =>
      if goLower c = 'b' ∨ goLower c = 'o' ∨ goLower c = 'x' then
        underscoreLoop (goLower c = 'x') rest 0
      else underscoreLoop false l1 2
  | _ => underscoreLoop false l1 2

/-- Digit-scanning loop of `ParseUint`: accumulates the value, tentatively
accepting underscores (base 0 call sites), rejecting non-digits and digits
not below the base.  Returns the value and whether an underscore was seen.
Go reports an out-of-range error at the first overflowing digit; here the
value is accumulated unbounded and the range check done by the caller, which
yields an error exactly when Go does (the error kinds, which the package
never distinguishes, are conflated). -/
def scanDigits (base : Nat) : List Char → Nat → Bool → Option (Nat × Bool)
  | [], acc, und => some (acc, und)
  | c :: rest, acc, und =>
      if c = '_' then scanDigits base rest acc true
      else match digitVal c with
        | none => none
        | some d => if base ≤ d then none else scanDigits base rest (acc * base + d) und

/-- strconv's `ParseUint(s, 0, bits)`: base detection from the `0x` / `0o` /
`0b` / leading-`0` prefixes, digit scan with underscore validation, and the
range check for the destination's bit width.  `none` is any parse error. -/
def goParseUint0 (s : List Char) (bits : Nat) : Option Nat :=
  if s = [] then none else
  let bd : Nat × List Char :=
    match s with
    | '0' :: c :: rest =>
        if goLower c = 'b' ∧ rest ≠ [] then (2, rest)
        else if goLower c = 'o' ∧ rest ≠ [] then (8, rest)
        else if goLower c = 'x' ∧ rest ≠ [] then (16, rest)
        else (8, c :: rest)
    | ['0'] => (8, [])
    | _ => (10, s)
  match scanDigits bd.1 bd.2 0 false with
  | none => none
  | some (n, und) =>
      if und ∧ ¬ underscoreOK s then none
      else if 2 ^ bits ≤ n then none
      else some n

/-- strconv's `ParseInt(s, 0, bits)`: strip one sign, parse the body as an
unsigned base-flexible integer, and apply the signed range check. -/
def goParseInt0 (s : List Char) (bits : Nat) : Option Int :=
  match s with
  | [] => none
  | c :: rest =>
    let neg := c = '-'
    let body := if c = '+' ∨ c = '-' then rest else s
    match goParseUint0 body bits with
    | none => none
    | some un =>
        if ¬ neg ∧ 2 ^ (bits - 1) ≤ un then none
        else if neg ∧ 2 ^ (bits - 1) < un then none
        else some (if neg then -(un : Int) else (un : Int))

/-- Decimal digit test used by `time.ParseDuration`. -/
def isDurDigit (c : Char) : Bool := '0' ≤ c ∧ c ≤ '9'

/-- time's `leadingInt`: consume leading decimal digits, erroring (as Go's
overflow error) when the value would exceed int64. -/
def leadingInt : List Char → Nat → Option (Nat × List Char)
  | [], x => some (x, [])
  | c :: rest, x =>
      if isDurDigit c then
        let y := x * 10 + (c.toNat - 48)
        if maxI64 < y then none else leadingInt rest y
      else some (x, c :: rest)

/-- time's `leadingFraction`: consume leading decimal digits of a fraction,
tracking the scale and silently discarding digits once int64 would
overflow. -/
def leadingFraction : List Char → Nat → Nat → Bool → Nat × Nat × List Char
  | [], x, scale, _ => (x, scale, [])
  | c :: rest, x, scale, overflow =>
      if isDurDigit c then
        if overflow then leadingFraction rest x scale overflow
        else
          let y := x * 10 + (c.toNat - 48)
          if maxI64 < y then leadingFraction rest x scale true
          else leadingFraction rest y (scale * 10) overflow
      else (x, scale, c :: rest)

/-- time's `unitMap`: nanoseconds per duration unit. -/
def unitNanos : List Char → Option Nat
  | ['n', 's'] => some 1
  | ['u', 's'] => some 1000
  | ['µ', 's'] => some 1000
  | ['μ', 's'] => some 1000
  | ['m', 's'] => some 1000000
  | ['s'] => some 1000000000
  | ['m'] => some 60000000000
  | ['h'] => some 3600000000000
  | _ => none

/-- One pass of `time.ParseDuration`'s term loop: number, optional fraction,
unit; accumulating into `d` with Go's overflow checks.  The fuel only bounds
the recursion and never runs out on the loop's own schedule, because every
iteration consumes at least one character (a digit or fraction plus a unit)
or errors.  Go computes the fractional contribution in float64
(`f * (unit/scale)`); integer division stands in for that rounding here (no
claim exercises fractional durations). -/
def durLoop : Nat → List Char → Nat → Option Nat
  | 0, _, _ => none
  | _ + 1, [], d => some d
  | fuel + 1, c :: cs, d =>
      if ¬ (c = '.' ∨ isDurDigit c) then none
      else
        match leadingInt (c :: cs) 0 with
        | none => none
        | some (v, rest1) =>
          let pre := rest1.length ≠ (c :: cs).length
          let fsr : Nat × Nat × List Char × Bool :=
            match rest1 with
            | '.' :: r =>
                match leadingFraction r 0 1 false with
                | (f, sc, r2) => (f, sc, r2, r2.length ≠ r.length)
            | _ => (0, 1, rest1, false)
          match fsr with
          | (f, scale, rest2, post) =>
            if ¬ pre ∧ ¬ post then none
            else
              let unitChars := rest2.takeWhile (fun u => ¬ (u = '.' ∨ isDurDigit u))
              let rest3 := rest2.dropWhile (fun u => ¬ (u = '.' ∨ isDurDigit u))
              if unitChars = [] then none
              else match unitNanos unitChars with
                | none => none
                | some unit =>
                    if maxI64 / unit < v then none
                    else
                      let v2 := if 0 < f then v * unit + f * unit / scale else v * unit
                      if maxI64 < v2 then none
                      else if maxI64 < d + v2 then none
                      else durLoop fuel rest3 (d + v2)

/-- `time.ParseDuration`: optional sign, the `"0"` special case, then the
term loop. -/
def goParseDuration (str : String) : Option Int :=
  let l := str.data
  let neg := match l with
    | '-' :: _ => true
    | _ => false
  let l1 := match l with
    | '-' :: r => r
    | '+' :: r => r
    | _ => l
  if l1 = ['0'] then some 0
  else if l1 = [] then none
  else match durLoop (l1.length + 1) l1 0 with
    | none => none
    | some d => some (if neg then -(d : Int) else (d : Int))

/-- Fraction formatting of `time.Duration.String` (`fmtFrac`): print up to
`prec` fractional digits, omitting trailing zeros and the decimal point when
the fraction is zero; returns the remaining integral value. -/
def fmtFracStr : Nat → Nat → Bool → List Char → Nat × List Char
  | 0, v, print, acc => (v, if print then '.' :: acc else acc)
  | p + 1, v, print, acc =>
      let digit := v % 10
      let print2 := print ∨ digit ≠ 0
      fmtFracStr p (v / 10) print2 (if print2 then Char.ofNat (48 + digit) :: acc else acc)

/-- `time.Duration.String`, the `fmt.Sprint` rendering of a duration-typed
value: sub-second durations use a single small unit with a fraction; larger
ones print hours, minutes and fractional seconds.  In particular the zero
duration renders as `0s`, not `0`. -/
def goDurationString (d : Int) : String :=
  let u := d.natAbs
  let sign := if d < 0 then "-" else ""
  if u < 1000000000 then
    if u = 0 then "0s"
    else
      let pu : Nat × String :=
        if u < 1000 then (0, "ns")
        else if u < 1000000 then (3, "µs")
        else (6, "ms")
      let wf := fmtFracStr pu.1 u false []
      sign ++ Nat.repr wf.1 ++ String.mk wf.2 ++ pu.2
  else
    let wf := fmtFracStr 9 u false []
    let secs := wf.1
    let secPart := Nat.repr (secs % 60) ++ String.mk wf.2 ++ "s"
    let mins := secs / 60
    if mins = 0 then sign ++ secPart
    else
      let minPart := Nat.repr (mins % 60) ++ "m"
      let hours := mins / 60
      if hours = 0 then sign ++ minPart ++ secPart
      else sign ++ Nat.repr hours ++ "h" ++ minPart ++ secPart

/-- Space-separated join used by `fmt.Sprint` for slices. -/
def sprintJoin : List String → String
  | [] => ""
  | [x] => x
  | x :: y :: xs => x ++ " " ++ sprintJoin (y :: xs)

/-- `fmt.Sprint(fv.Interface())`: the canonical text rendering `Parse`
probes.  Booleans and numbers print their literal forms, durations print via
`time.Duration.String`, strings print verbatim, slices print bracketed and
space-separated, nil pointers and nil interfaces print `<nil>`, and non-nil
handles print Go's `&{...}` struct dump, abstracted here up to its
delimiters (only membership in the fixed emptiness set matters, and a
rendering that starts with `&` followed by a brace is never in it).  The
catch-all covers type/data pairings that cannot arise from a real
location. -/
def sprint : PType → PValue → String
  | .bool, .bool b => if b then "true" else "false"
  | .int _ true, .int v => goDurationString v
  | .int _ false, .int v => Int.repr v
  | .uint _, .uint v => Nat.repr v
  | .str, .str s => s
  | .slice ety, .slice es => "[" ++ sprintJoin (es.map (sprint ety)) ++ "]"
  | .file, .file none => "<nil>"
  | .file, .file (some p) => "&\x7b" ++ p ++ "\x7d"
  | .db, .db none => "<nil>"
  | .db, .db (some dc) => "&\x7b" ++ dc.1 ++ " " ++ dc.2 ++ "\x7d"
  | .other _, .other r => r
  | _, _ => ""

/-- The emptiness switch of `Parse` (source lines 105–110): a location is
overwritable when its current value renders as one of these five strings. -/
def isEmptyRender (s : String) : Bool :=
  s = "false" ∨ s = "0" ∨ s = "[]" ∨ s = "" ∨ s = "<nil>"

/-- strconv's `ParseBool`: the fixed set of accepted literals. -/
def goParseBool (s : String) : Option Bool :=
  if s = "1" ∨ s = "t" ∨ s = "T" ∨ s = "true" ∨ s = "TRUE" ∨ s = "True" then some true
  else if s = "0" ∨ s = "f" ∨ s = "F" ∨ s = "false" ∨ s = "FALSE" ∨ s = "False" then some false
  else none

/-- `strings.Split(val, ";")`: split on every semicolon, keeping empty
parts. -/
def splitSemis : List Char → List (List Char)
  | [] => [[]]
  | ';' :: rest => [] :: splitSemis rest
  | c :: rest =>
      match splitSemis rest with
      | [] => [[c]]
      | p :: ps => (c :: p) :: ps

/-- Go's space test for `strings.TrimSpace`, on the Latin-1 range
(`unicode.IsSpace` also accepts some higher code points no claim
exercises). -/
def goIsSpace (c : Char) : Bool :=
  c = ' ' ∨ c = '\t' ∨ c = '\n' ∨ c = Char.ofNat 11 ∨ c = Char.ofNat 12 ∨
    c = '\r' ∨ c = Char.ofNat 133 ∨ c = Char.ofNat 160

/-- `strings.TrimSpace`. -/
def goTrimSpace (l : List Char) : List Char :=
  ((l.dropWhile goIsSpace).reverse.dropWhile goIsSpace).reverse

/-- Parse errors of the coercion engine, tagged with the branch that failed
and the offending input (the package returns the strconv / time error
verbatim and never inspects it, so only the failure itself is modelled). -/
inductive ParseErr where
  | boolErr (input : String) : ParseErr
  | intErr (input : String) : ParseErr
  | uintErr (input : String) : ParseErr
  | durationErr (input : String) : ParseErr
deriving DecidableEq, Repr

/-- The element loop of `ParseHard`'s slice branch: trim each part, coerce it
into a freshly allocated element with the supplied element-level routine,
and stop at the first error — in which case no list is produced and the
destination keeps its previous value. -/
def parsePartsWith (elemCoerce : String → PValue × Option ParseErr) :
    List (List Char) → Except ParseErr (List PValue)
  | [] => Except.ok []
  | p :: rest =>
      match elemCoerce (String.mk (goTrimSpace p)) with
      | (v, none) =>
          match parsePartsWith elemCoerce rest with
          | Except.ok l => Except.ok (v :: l)
          | Except.error e => Except.error e
      | (_, some e) => Except.error e

/-- The driver/connection-string split of the `*sql.DB` branch: the
submatches of `((\w+)\/)?([\w\W\d]+)` on a non-empty input.  The optional
driver group matches exactly when a non-empty maximal run of word characters
is followed by a slash and at least one further character. -/
def dbSplit (l : List Char) : String × String :=
  let w := l.takeWhile (fun c => ('0' ≤ c ∧ c ≤ '9') ∨ ('a' ≤ c ∧ c ≤ 'z') ∨
    ('A' ≤ c ∧ c ≤ 'Z') ∨ c = '_')
  let rest := l.dropWhile (fun c => ('0' ≤ c ∧ c ≤ '9') ∨ ('a' ≤ c ∧ c ≤ 'z') ∨
    ('A' ≤ c ∧ c ≤ 'Z') ∨ c = '_')
  match rest with
  | '/' :: r2 =>
      if w ≠ [] ∧ r2 ≠ [] then (String.mk w, String.mk r2) else ("", String.mk l)
  | _ => ("", String.mk l)

/-- `ParseHard` (source lines 114–202), indexed by the location's reflective
type: empty input returns immediately with no change; otherwise dispatch on
the kind, with the `time.Duration` named-type test on signed integers, the
slice branch splitting on semicolons and coercing each trimmed part via
`Parse` (whose emptiness guard is inlined here at the freshly allocated zero
element), the file and database branches recording the opened resource, and
every other kind a silent no-op. -/
def ParseHardT : PType → String → PValue → PValue × Option ParseErr
  | ty, val, fv =>
    if val = "" then (fv, none) else
    match ty with
    | .bool =>
        match goParseBool val with
        | some b => (PValue.bool b, none)
        | none => (fv, some (ParseErr.boolErr val))
    | .int _ true =>
        match goParseDuration val with
        | some d => (PValue.int d, none)
        | none => (fv, some (ParseErr.durationErr val))
    | .int bits false =>
        match goParseInt0 val.data bits with
        | some n => (PValue.int n, none)
        | none => (fv, some (ParseErr.intErr val))
    | .uint bits =>
        match goParseUint0 val.data bits with
        | some n => (PValue.uint n, none)
        | none => (fv, some (ParseErr.uintErr val))
    | .str => (PValue.str val, none)
    | .slice ety =>
        match parsePartsWith
            (fun part =>
              if isEmptyRender (sprint ety (zeroValue ety)) then
                ParseHardT ety part (zeroValue ety)
              else (zeroValue ety, none))
            (splitSemis val.data) with
        | Except.ok l => (PValue.slice l, none)
        | Except.error e => (fv, some e)
    | .file => (PValue.file (some val), none)
    | .db =>
        let dc := dbSplit val.data
        let dvr := if dc.1 = "" then "postgres" else dc.1
        (PValue.db (some (dvr, dc.2)), none)
    | .other _ => (fv, none)

/-- `ParseHard` on a location given as a type/current-value pair. -/
def ParseHard (val : String) (ty : PType) (fv : PValue) : PValue × Option ParseErr :=
  ParseHardT ty val fv

/-- `Parse` (source lines 104–111): render the current value with
`fmt.Sprint`; if the rendering is in the fixed emptiness set, defer to
`ParseHard`, otherwise succeed leaving the location untouched. -/
def Parse (val : String) (ty : PType) (fv : PValue) : PValue × Option ParseErr :=
  if isEmptyRender (sprint ty fv) then ParseHard val ty fv else (fv, none)

/-- Element-level coercion of the slice branch: `Parse` applied to a freshly
allocated zero element of the element type. -/
def elemCoerceOf (ety : PType) (part : String) : PValue × Option ParseErr :=
  Parse part ety (zeroValue ety)

/-! Helper lemmas. -/

theorem seqStep_none {E : Type} (f : List Event × Option E)
    (k : Unit → List Event × Option E) (h : f.2 = none) :
    seqStep f k = (f.1 ++ (k ()).1, (k ()).2) := by
  unfold seqStep
  rw [h]

theorem seqStep_some {E : Type} (f : List Event × Option E)
    (k : Unit → List Event × Option E) (e : E) (h : f.2 = some e) :
    seqStep f k = (f.1, some e) := by
  unfold seqStep
  rw [h]

theorem mem_seqStep {E : Type} {x : Event} {f : List Event × Option E}
    {k : Unit → List Event × Option E} (h : x ∈ (seqStep f k).1) :
    x ∈ f.1 ∨ x ∈ (k ()).1 := by
  cases hf : f.2 with
  | none =>
      rw [seqStep_none f k hf] at h
      exact List.mem_append.mp h
  | some e =>
      rw [seqStep_some f k e hf] at h
      exact Or.inl h

/-- Every meta reaching `onField` during the field loop is the meta of a
settable (exported, reachable) field. -/
theorem onField_mem_settableMetas {E : Type} (os op : FieldMeta → Option E) (m : FieldMeta) :
    ∀ fs : Fields, Event.onField m ∈ (scanFields os op fs).1 → m ∈ settableMetas fs := by
  intro fs
  induction fs with
  | nil => intro h; simp [scanFields] at h
  | leafF m2 ex rest ih =>
      intro h
      cases ex with
      | false =>
          simp only [scanFields, Bool.false_eq_true, if_false] at h
          simp only [settableMetas, Bool.false_eq_true, if_false, List.nil_append]
          exact ih h
      | true =>
          simp only [scanFields, if_true] at h
          simp only [settableMetas, if_true]
          rcases mem_seqStep h with h1 | h2
          · simp only [List.mem_singleton, Event.onField.injEq] at h1
            simp [h1]
          · simp only [List.cons_append, List.nil_append, List.mem_cons]
            exact Or.inr (ih h2)
  | strctF m2 ex inner rest ihInner ihRest =>
      intro h
      cases ex with
      | false =>
          simp only [scanFields, Bool.false_eq_true, if_false] at h
          simp only [settableMetas, Bool.false_eq_true, if_false, List.nil_append]
          exact ihRest h
      | true =>
          simp only [scanFields, if_true] at h
          simp only [settableMetas, if_true, List.append_assoc, List.mem_append,
            List.mem_singleton]
          rcases mem_seqStep h with h1 | h2
          · simp at h1
          rcases mem_seqStep h2 with h3 | h4
          · exact Or.inl (ihInner h3)
          rcases mem_seqStep h4 with h5 | h6
          · simp only [List.mem_singleton, Event.onField.injEq] at h5
            exact Or.inr (Or.inl h5)
          · exact Or.inr (Or.inr (ihRest h6))
  | ptrStrctF m2 ex inner rest ihInner ihRest =>
      intro h
      cases ex with
      | false =>
          simp only [scanFields, Bool.false_eq_true, if_false] at h
          simp only [settableMetas, Bool.false_eq_true, if_false, List.nil_append]
          exact ihRest h
      | true =>
          simp only [scanFields, if_true] at h
          simp only [settableMetas, if_true, List.append_assoc, List.mem_append,
            List.mem_singleton]
          rcases mem_seqStep h with h1 | h2
          · simp at h1
          rcases mem_seqStep h2 with h3 | h4
          · exact Or.inl (ihInner h3)
          rcases mem_seqStep h4 with h5 | h6
          · simp only [List.mem_singleton, Event.onField.injEq] at h5
            exact Or.inr (Or.inl h5)
          · exact Or.inr (Or.inr (ihRest h6))
  | ptrNilF m2 ex rest ih =>
      intro h
      cases ex with
      | false =>
          simp only [scanFields, Bool.false_eq_true, if_false] at h
          simp only [settableMetas, Bool.false_eq_true, if_false, List.nil_append]
          exact ih h
      | true =>
          simp only [scanFields, if_true] at h
          simp only [settableMetas, if_true]
          rcases mem_seqStep h with h1 | h2
          · simp only [List.mem_singleton, Event.onField.injEq] at h1
            simp [h1]
          · simp only [List.cons_append, List.nil_append, List.mem_cons]
            exact Or.inr (ih h2)
  | ptrOtherF m2 ex rest ih =>
      intro h
      cases ex with
      | false =>
          simp only [scanFields, Bool.false_eq_true, if_false] at h
          simp only [settableMetas, Bool.false_eq_true, if_false, List.nil_append]
          exact ih h
      | true =>
          simp only [scanFields, if_true] at h
          simp only [settableMetas, if_true]
          rcases mem_seqStep h with h1 | h2
          · simp only [List.mem_singleton, Event.onField.injEq] at h1
            simp [h1]
          · simp only [List.cons_append, List.nil_append, List.mem_cons]
            exact Or.inr (ih h2)

/-- Unfolding of the slice branch of `ParseHard` on non-empty input: split on
semicolons, coerce every trimmed part into a fresh zero element via `Parse`,
and assign the assembled sequence only when every element succeeded. -/
theorem ParseHard_slice_eq (ety : PType) (val : String) (fv : PValue) (h : val ≠ "") :
    ParseHard val (PType.slice ety) fv =
      (match parsePartsWith (elemCoerceOf ety) (splitSemis val.data) with
       | Except.ok l => (PValue.slice l, none)
       | Except.error e => (fv, some e)) := by
  show ParseHardT (PType.slice ety) val fv = _
  rw [ParseHardT]
  rw [if_neg h]
  rfl

/-! Claim theorems. -/

/-- C1: `Parse` performs the coercion-and-assignment of `ParseHard` exactly
when the location's current value renders (via `fmt.Sprint`) into the fixed
set `false` / `0` / `[]` / empty / `<nil>`; otherwise it succeeds leaving
the location unchanged.  Consequently a second `Parse` with the same
non-empty text on a location already holding a non-empty value from the
first call is a no-op, while `ParseHard` re-applies unconditionally (a
boolean location holding `true` is left alone by `Parse "false"` but reset
by `ParseHard "false"`). -/
theorem parse_guard_iff (ty : PType) (v : PValue) (val : String) :
    (isEmptyRender (sprint ty v) = true → Parse val ty v = ParseHard val ty v) ∧
    (isEmptyRender (sprint ty v) = false → Parse val ty v = (v, none)) ∧
    (∀ v2 : PValue, val ≠ "" → Parse val ty v = (v2, none) →
      isEmptyRender (sprint ty v2) = false → Parse val ty v2 = (v2, none)) ∧
    ParseHard "false" PType.bool (PValue.bool true) = (PValue.bool false, none) ∧
    Parse "false" PType.bool (PValue.bool true) = (PValue.bool true, none) := by
  refine ⟨?_, ?_, ?_, rfl, rfl⟩
  · intro h; simp [Parse, h]
  · intro h; simp [Parse, h]
  · intro v2 _ _ h2; simp [Parse, h2]

/-- Witness for C1: an empty boolean location defers to `ParseHard`; a
non-empty one is left unchanged; after a first `Parse "true"` filled the
location, a second `Parse "true"` is a no-op. -/
theorem parse_guard_iff_witness :
    Parse "true" PType.bool (PValue.bool false) = ParseHard "true" PType.bool (PValue.bool false) ∧
    Parse "false" PType.bool (PValue.bool true) = (PValue.bool true, none) ∧
    Parse "true" PType.bool (PValue.bool true) = (PValue.bool true, none) :=
  ⟨(parse_guard_iff PType.bool (PValue.bool false) "true").1 rfl,
   ((parse_guard_iff PType.bool (PValue.bool true) "false").2.1 rfl),
   ((parse_guard_iff PType.bool (PValue.bool false) "true").2.2.1 (PValue.bool true)
      (by decide) rfl rfl)⟩

/-- C2: a root that is not a pointer, is a nil pointer, or points to a
non-struct makes both `Scan` and `ScanAll` return `ErrNoPtr` (message
`insert is not a pointer or a struct`) with an empty event trace — neither
callback is ever invoked. -/
theorem scan_bad_root_errNoPtr (E : Type) (os op : FieldMeta → Option E) :
    ScanAll os op Root.notPtr = ([], some ScanErr.noPtr) ∧
    ScanAll os op Root.nilPtr = ([], some ScanErr.noPtr) ∧
    ScanAll os op Root.ptrToNonStruct = ([], some ScanErr.noPtr) ∧
    Scan op Root.notPtr = ([], some ScanErr.noPtr) ∧
    Scan op Root.nilPtr = ([], some ScanErr.noPtr) ∧
    Scan op Root.ptrToNonStruct = ([], some ScanErr.noPtr) ∧
    (ScanErr.noPtr : ScanErr E).msg = some "insert is not a pointer or a struct" :=
  ⟨rfl, rfl, rfl, rfl, rfl, rfl, rfl⟩

/-- C3: a field whose storage is not settable (derived from an unexported
name) is never passed to `onField`, whatever its tags: every meta reaching
`onField` belongs to `settableMetas`, which by construction contains only
exported fields. -/
theorem scan_unexported_never_onField (E : Type) (os op : FieldMeta → Option E)
    (fs : Fields) (m : FieldMeta) (h : m ∉ settableMetas fs) :
    Event.onField m ∉ (ScanAll os op (Root.ptrToStruct fs)).1 ∧
    Event.onField m ∉ (Scan op (Root.ptrToStruct fs)).1 := by
  constructor
  · intro hmem
    exact h (onField_mem_settableMetas os op m fs hmem)
  · intro hmem
    exact h (onField_mem_settableMetas (fun _ => none) op m fs hmem)

/-- Witness for C3: an unexported tagged field (as in the package's own
test struct) is not among the settable metas and yields no `onField`
event. -/
theorem scan_unexported_never_onField_witness :
    (⟨"shouldNotRead", "SHOULDNOTREAD"⟩ : FieldMeta) ∉
      settableMetas (Fields.leafF ⟨"shouldNotRead", "SHOULDNOTREAD"⟩ false
        (Fields.leafF ⟨"Str", "test"⟩ true Fields.nil)) ∧
    Event.onField (⟨"shouldNotRead", "SHOULDNOTREAD"⟩ : FieldMeta) ∉
      (ScanAll (fun _ => (none : Option Unit)) (fun _ => none)
        (Root.ptrToStruct (Fields.leafF ⟨"shouldNotRead", "SHOULDNOTREAD"⟩ false
          (Fields.leafF ⟨"Str", "test"⟩ true Fields.nil)))).1 :=
  ⟨by decide,
   (scan_unexported_never_onField Unit (fun _ => none) (fun _ => none)
      (Fields.leafF ⟨"shouldNotRead", "SHOULDNOTREAD"⟩ false
        (Fields.leafF ⟨"Str", "test"⟩ true Fields.nil))
      ⟨"shouldNotRead", "SHOULDNOTREAD"⟩ (by decide)).1⟩

/-- C4: for a nested-record field — direct or through a non-nil pointer —
`onStruct` fires with the field's metadata before any of the nested record's
own fields reach `onField`, and every nested `onField` happens before the
scanner returns to the parent level and offers the nested-record field
itself to `onField`. -/
theorem scanAll_onStruct_before_nested (E : Type) (os op : FieldMeta → Option E)
    (m : FieldMeta) (inner rest : Fields)
    (hos : os m = none) (hin : (scanFields os op inner).2 = none) (hop : op m = none) :
    scanFields os op (Fields.strctF m true inner rest) =
      (Event.onStruct m ::
        ((scanFields os op inner).1 ++ Event.onField m :: (scanFields os op rest).1),
        (scanFields os op rest).2) ∧
    scanFields os op (Fields.ptrStrctF m true inner rest) =
      (Event.onStruct m ::
        ((scanFields os op inner).1 ++ Event.onField m :: (scanFields os op rest).1),
        (scanFields os op rest).2) := by
  constructor <;> simp [scanFields, seqStep, hos, hin, hop]

/-- Witness for C4: a concrete two-level record, with error-free callbacks,
produces exactly the trace nested-struct announcement, nested field, parent
field. -/
theorem scanAll_onStruct_before_nested_witness :
    scanFields (fun _ => (none : Option Unit)) (fun _ => none)
      (Fields.strctF ⟨"A", ""⟩ true (Fields.leafF ⟨"B", ""⟩ true Fields.nil)
        (Fields.leafF ⟨"C", ""⟩ true Fields.nil)) =
      (Event.onStruct ⟨"A", ""⟩ ::
        ((scanFields (fun _ => (none : Option Unit)) (fun _ => none)
            (Fields.leafF ⟨"B", ""⟩ true Fields.nil)).1 ++
          Event.onField ⟨"A", ""⟩ ::
            (scanFields (fun _ => (none : Option Unit)) (fun _ => none)
              (Fields.leafF ⟨"C", ""⟩ true Fields.nil)).1),
        (scanFields (fun _ => (none : Option Unit)) (fun _ => none)
          (Fields.leafF ⟨"C", ""⟩ true Fields.nil)).2) :=
  (scanAll_onStruct_before_nested Unit (fun _ => none) (fun _ => none)
    ⟨"A", ""⟩ (Fields.leafF ⟨"B", ""⟩ true Fields.nil)
    (Fields.leafF ⟨"C", ""⟩ true Fields.nil) rfl rfl rfl).1

/-- C5: a field that is a nil pointer to a struct, or a pointer to a
non-struct, is neither recursed into nor announced via `onStruct`; it is
still offered to `onField` exactly once when settable, and skipped entirely
when not. -/
theorem scan_nilPtr_field (E : Type) (os op : FieldMeta → Option E)
    (m : FieldMeta) (rest : Fields) (hop : op m = none) :
    scanFields os op (Fields.ptrNilF m true rest) =
      (Event.onField m :: (scanFields os op rest).1, (scanFields os op rest).2) ∧
    scanFields os op (Fields.ptrNilF m false rest) = scanFields os op rest ∧
    scanFields os op (Fields.ptrOtherF m true rest) =
      (Event.onField m :: (scanFields os op rest).1, (scanFields os op rest).2) ∧
    scanFields os op (Fields.ptrOtherF m false rest) = scanFields os op rest := by
  refine ⟨?_, rfl, ?_, rfl⟩ <;> simp [scanFields, seqStep, hop]

/-- Witness for C5: a settable nil struct pointer field at the top of a
record is visited exactly once, with no struct announcement. -/
theorem scan_nilPtr_field_witness :
    scanFields (fun _ => (none : Option Unit)) (fun _ => none)
      (Fields.ptrNilF ⟨"File", ""⟩ true Fields.nil) =
      (Event.onField ⟨"File", ""⟩ ::
        (scanFields (fun _ => (none : Option Unit)) (fun _ => none) Fields.nil).1,
        (scanFields (fun _ => (none : Option Unit)) (fun _ => none) Fields.nil).2) :=
  (scan_nilPtr_field Unit (fun _ => none) (fun _ => none) ⟨"File", ""⟩ Fields.nil rfl).1

/-- C6: a database destination parses its input as an optional
word-characters driver segment before a slash, followed by the connection
string: `mysql/user:pass@host/db` opens with driver `mysql` and the
remainder, while `user:pass@host/db` (no bare driver token followed by a
slash) opens with the driver defaulted to `postgres` and the whole input as
connection string. -/
theorem parseHard_db_driver (fv : PValue) (val : String) (h : val ≠ "") :
    ParseHard "mysql/user:pass@host/db" PType.db fv
      = (PValue.db (some ("mysql", "user:pass@host/db")), none) ∧
    ParseHard "user:pass@host/db" PType.db fv
      = (PValue.db (some ("postgres", "user:pass@host/db")), none) ∧
    ParseHard val PType.db fv =
      (PValue.db (some
        (if (dbSplit val.data).1 = "" then "postgres" else (dbSplit val.data).1,
          (dbSplit val.data).2)), none) := by
  refine ⟨rfl, rfl, ?_⟩
  show ParseHardT PType.db val fv = _
  rw [ParseHardT]
  rw [if_neg h]

/-- Witness for C6 at a concrete nil `*sql.DB` destination. -/
theorem parseHard_db_driver_witness :
    ParseHard "mysql/user:pass@host/db" PType.db (PValue.db none)
      = (PValue.db (some ("mysql", "user:pass@host/db")), none) ∧
    ParseHard "user:pass@host/db" PType.db (PValue.db none)
      = (PValue.db (some ("postgres", "user:pass@host/db")), none) :=
  ⟨(parseHard_db_driver (PValue.db none) "x" (by decide)).1,
   (parseHard_db_driver (PValue.db none) "x" (by decide)).2.1⟩

/-- C7: a signed-integer destination whose named type is `time.Duration`
parses its input with duration-literal syntax and stores the tick count —
`1h30m` stores 5400000000000 nanosecond ticks, i.e. 90 minutes — while any
other signed-integer destination goes through the base-flexible integer
path, on which `1h30m` is a parse error. -/
theorem parseHard_duration_dispatch (bits : Nat) (fv : PValue) (val : String) (h : val ≠ "") :
    ParseHard "1h30m" (PType.int bits true) fv = (PValue.int 5400000000000, none) ∧
    (5400000000000 : Int) = 90 * 60 * 1000000000 ∧
    ParseHard val (PType.int bits true) fv =
      (match goParseDuration val with
       | some d => (PValue.int d, none)
       | none => (fv, some (ParseErr.durationErr val))) ∧
    ParseHard val (PType.int bits false) fv =
      (match goParseInt0 val.data bits with
       | some n => (PValue.int n, none)
       | none => (fv, some (ParseErr.intErr val))) ∧
    ParseHard "1h30m" (PType.int 64 false) (PValue.int 0)
      = (PValue.int 0, some (ParseErr.intErr "1h30m")) := by
  refine ⟨rfl, by norm_num, ?_, ?_, rfl⟩
  · show ParseHardT (PType.int bits true) val fv = _
    rw [ParseHardT]
    rw [if_neg h]
  · show ParseHardT (PType.int bits false) val fv = _
    rw [ParseHardT]
    rw [if_neg h]

/-- Witness for C7 at a 64-bit duration destination. -/
theorem parseHard_duration_dispatch_witness :
    ParseHard "1h30m" (PType.int 64 true) (PValue.int 0) = (PValue.int 5400000000000, none) ∧
    ParseHard "1h30m" (PType.int 64 true) (PValue.int 0) =
      (match goParseDuration "1h30m" with
       | some d => (PValue.int d, none)
       | none => (PValue.int 0, some (ParseErr.durationErr "1h30m"))) :=
  ⟨(parseHard_duration_dispatch 64 (PValue.int 0) "1h30m" (by decide)).1,
   (parseHard_duration_dispatch 64 (PValue.int 0) "1h30m" (by decide)).2.2.1⟩

/-- C8: a slice destination splits the input on semicolons, trims each part,
coerces every part via `Parse` into a freshly allocated zero element, and
assigns the assembled sequence: an integer-slice destination given `1;2;3`
ends up holding exactly `[1, 2, 3]`, and `1 ; 2 ;3` yields the same. -/
theorem parseHard_slice_roundtrip (ety : PType) (val : String) (fv : PValue) (h : val ≠ "") :
    ParseHard "1;2;3" (PType.slice (PType.int 64 false)) fv
      = (PValue.slice [PValue.int 1, PValue.int 2, PValue.int 3], none) ∧
    ParseHard "1 ; 2 ;3" (PType.slice (PType.int 64 false)) fv
      = (PValue.slice [PValue.int 1, PValue.int 2, PValue.int 3], none) ∧
    ParseHard val (PType.slice ety) fv =
      (match parsePartsWith (elemCoerceOf ety) (splitSemis val.data) with
       | Except.ok l => (PValue.slice l, none)
       | Except.error e => (fv, some e)) :=
  ⟨rfl, rfl, ParseHard_slice_eq ety val fv h⟩

/-- Witness for C8 at a concrete integer-slice destination. -/
theorem parseHard_slice_roundtrip_witness :
    ParseHard "1;2;3" (PType.slice (PType.int 64 false)) (PValue.slice [])
      = (PValue.slice [PValue.int 1, PValue.int 2, PValue.int 3], none) ∧
    ParseHard "1 ; 2 ;3" (PType.slice (PType.int 64 false)) (PValue.slice [])
      = (PValue.slice [PValue.int 1, PValue.int 2, PValue.int 3], none) :=
  ⟨(parseHard_slice_roundtrip (PType.int 64 false) "1;2;3" (PValue.slice []) (by decide)).1,
   (parseHard_slice_roundtrip (PType.int 64 false) "1;2;3" (PValue.slice []) (by decide)).2.1⟩

/-- C9: the empty string as input makes both `Parse` and `ParseHard` return
success and leave the destination's value completely unchanged, for every
destination. -/
theorem parse_empty_noop (ty : PType) (fv : PValue) :
    Parse "" ty fv = (fv, none) ∧ ParseHard "" ty fv = (fv, none) := by
  have h2 : ParseHard "" ty fv = (fv, none) := by
    cases ty with
    | bool => rfl
    | int bits isDur => cases isDur <;> rfl
    | uint bits => rfl
    | str => rfl
    | slice ety => rfl
    | file => rfl
    | db => rfl
    | other zr => rfl
  refine ⟨?_, h2⟩
  by_cases h : isEmptyRender (sprint ty fv) <;> simp [Parse, h, h2]

/-- C10: if coercing any one of the semicolon-separated parts fails,
`ParseHard` on a slice destination returns that element's error and the
destination keeps its previous value — the newly built sequence is assigned
only after every element coerced successfully. -/
theorem parseHard_slice_error_frame (ety : PType) (val : String) (fv : PValue) (e : ParseErr)
    (h : val ≠ "")
    (he : parsePartsWith (elemCoerceOf ety) (splitSemis val.data) = Except.error e) :
    ParseHard val (PType.slice ety) fv = (fv, some e) := by
  rw [ParseHard_slice_eq ety val fv h, he]

/-- Witness for C10: `1;x` against an integer slice holding `[9]` fails on
the second part and leaves the slice holding `[9]`. -/
theorem parseHard_slice_error_frame_witness :
    ParseHard "1;x" (PType.slice (PType.int 64 false)) (PValue.slice [PValue.int 9])
      = (PValue.slice [PValue.int 9], some (ParseErr.intErr "x")) :=
  parseHard_slice_error_frame (PType.int 64 false) "1;x" (PValue.slice [PValue.int 9])
    (ParseErr.intErr "x") (by decide) rfl

end Strct
